import Mathlib

/-!
Shallow embedding of `src/task_manager.py` (class `TaskManager`).

Tasks are Python dicts with the seven keys
`id, title, description, priority, status, created_at, updated_at`;
we model them as a structure.  Timestamps (`datetime.now().isoformat()`)
are modelled as natural numbers supplied explicitly to each operation
(`datetime.now()` is called twice in `add_task`, once in `update_task`).
The backing JSON file is modelled by `Doc`: absent, present-but-invalid
JSON, or a valid array of task records.  Every method that mutates state
returns a pair (python return value, new store); read-only methods also
return such a pair so that frame properties are statable.
-/

namespace TaskManager

/-- A task record: the seven keys every task dict carries. -/
structure Task where
  id : Nat
  title : String
  description : String
  priority : String
  status : String
  created_at : Nat
  updated_at : Nat
deriving DecidableEq, Repr

/-- The `**kwargs` of `update_task`: each recognised key is optionally
supplied.  Keys not present on a task dict are silently ignored by the
source (`if key in task`), so they need no representation; note that the
source's membership test accepts *all seven* keys, including `id` and
`created_at`. -/
structure UpdateFields where
  id : Option Nat := none
  title : Option String := none
  description : Option String := none
  priority : Option String := none
  status : Option String := none
  created_at : Option Nat := none
  updated_at : Option Nat := none
deriving DecidableEq, Repr

/-- The backing JSON document at `self.data_file`. -/
inductive Doc where
  | absent : Doc
  | invalid : Doc
  | valid : List Task → Doc
deriving DecidableEq, Repr

/-- The state of a `TaskManager` object: `self.tasks`, `self.next_id`,
and the backing document. -/
structure Store where
  tasks : List Task
  next_id : Nat
  doc : Doc
deriving DecidableEq, Repr

/-- `load_tasks`: returns the parsed document, or `[]` when the file is
missing or raises `json.JSONDecodeError`. -/
def load_tasks : Doc → List Task
  | Doc.absent => []
  | Doc.invalid => []
  | Doc.valid ts => ts

/-- `get_next_id`: `1` if `self.tasks` is empty, else
`max(task['id'] for task in self.tasks) + 1`. -/
def get_next_id : List Task → Nat
  | [] => 1
  | t :: ts => (ts.foldl (fun m u => Nat.max m u.id) t.id) + 1

/-- `__init__`: load the tasks from the document, then compute `next_id`. -/
def mkStore (d : Doc) : Store :=
  let ts := load_tasks d
  { tasks := ts, next_id := get_next_id ts, doc := d }

/-- `save_tasks`: rewrite the whole document from `self.tasks`. -/
def save_tasks (s : Store) : Store :=
  { s with doc := Doc.valid s.tasks }

/-- `add_task`: build the record with id `self.next_id`, append it,
bump `next_id`, persist, return the record.  `nowC` and `nowU` are the
two separate `datetime.now()` calls for `created_at` and `updated_at`. -/
def add_task (title description priority : String) (nowC nowU : Nat)
    (s : Store) : Task × Store :=
  let task : Task :=
    { id := s.next_id, title := title, description := description,
      priority := priority, status := "pending",
      created_at := nowC, updated_at := nowU }
  let s1 : Store := { s with tasks := s.tasks ++ [task], next_id := s.next_id + 1 }
  (task, save_tasks s1)

/-- The kwargs loop of `update_task`: each supplied key already present
on the task dict overwrites the field (all seven keys are present). -/
def applyKwargs (kw : UpdateFields) (t : Task) : Task :=
  { id := kw.id.getD t.id,
    title := kw.title.getD t.title,
    description := kw.description.getD t.description,
    priority := kw.priority.getD t.priority,
    status := kw.status.getD t.status,
    created_at := kw.created_at.getD t.created_at,
    updated_at := kw.updated_at.getD t.updated_at }

/-- The linear scan of `update_task`: find the first task with matching
id, apply the kwargs, then unconditionally set `updated_at = now`.
Returns the updated record and the updated collection. -/
def updateList (task_id : Nat) (kw : UpdateFields) (now : Nat) :
    List Task → Option (Task × List Task)
  | [] => none
  | t :: ts =>
    if t.id = task_id then
      let t2 : Task := { applyKwargs kw t with updated_at := now }
      some (t2, t2 :: ts)
    else
      match updateList task_id kw now ts with
      | none => none
      | some (r, ts2) => some (r, t :: ts2)

/-- `update_task`: on a match, persist and return the record; otherwise
return `None` without touching anything. -/
def update_task (task_id : Nat) (kw : UpdateFields) (now : Nat)
    (s : Store) : Option Task × Store :=
  match updateList task_id kw now s.tasks with
  | none => (none, s)
  | some (t2, ts2) => (some t2, save_tasks { s with tasks := ts2 })

/-- The scan of `delete_task`: remove the first task with matching id. -/
def deleteList (task_id : Nat) : List Task → Option (List Task)
  | [] => none
  | t :: ts =>
    if t.id = task_id then some ts
    else (deleteList task_id ts).map (fun ts2 => t :: ts2)

/-- `delete_task`: delete the first match and persist, returning `True`;
return `False` when no task has the id. -/
def delete_task (task_id : Nat) (s : Store) : Bool × Store :=
  match deleteList task_id s.tasks with
  | none => (false, s)
  | some ts2 => (true, save_tasks { s with tasks := ts2 })

/-- `get_task`: linear scan returning the first match or `None`. -/
def get_task (task_id : Nat) (s : Store) : Option Task × Store :=
  (s.tasks.find? (fun t => t.id == task_id), s)

/-- Python truthiness of the optional `status` / `priority` filter
arguments: `None` and `""` are falsy. -/
def truthy : Option String → Bool
  | none => false
  | some v => !(v == "")

/-- Stable insertion of a task into a list sorted by id (`sorted` with
`key=lambda x: x['id']`). -/
def insertById (t : Task) : List Task → List Task
  | [] => [t]
  | u :: us => if t.id ≤ u.id then t :: u :: us else u :: insertById t us

/-- `sorted(tasks, key=lambda x: x['id'])`. -/
def sortById : List Task → List Task
  | [] => []
  | t :: ts => insertById t (sortById ts)

/-- `list_tasks`: copy, filter by truthy `status`, then by truthy
`priority`, then sort ascending by id. -/
def list_tasks (status priority : Option String) (s : Store) :
    List Task × Store :=
  let ft := s.tasks
  let ft := if truthy status then ft.filter (fun t => t.status == status.getD "") else ft
  let ft := if truthy priority then ft.filter (fun t => t.priority == priority.getD "") else ft
  (sortById ft, s)

/-- The return value of `get_stats`. -/
structure Stats where
  total : Nat
  pending : Nat
  completed : Nat
  by_priority : List (String × Nat)
deriving DecidableEq, Repr

/-- Python `dict.get(k, d)` on an insertion-ordered dict. -/
def dictGetD (m : List (String × Nat)) (k : String) (d : Nat) : Nat :=
  match m with
  | [] => d
  | (k2, v) :: rest => if k2 = k then v else dictGetD rest k d

/-- Python `m[k] = v` on an insertion-ordered dict: overwrite in place,
or append a fresh key at the end. -/
def dictSet (m : List (String × Nat)) (k : String) (v : Nat) :
    List (String × Nat) :=
  match m with
  | [] => [(k, v)]
  | (k2, v2) :: rest =>
    if k2 = k then (k, v) :: rest else (k2, v2) :: dictSet rest k v

/-- One iteration of the `priority_stats` loop in `get_stats`. -/
def bumpPriority (m : List (String × Nat)) (p : String) :
    List (String × Nat) :=
  dictSet m p (dictGetD m p 0 + 1)

/-- `get_stats`: totals, the two status counts, and the priority
histogram built in collection order. -/
def get_stats (s : Store) : Stats × Store :=
  ({ total := s.tasks.length,
     pending := (s.tasks.filter (fun t => t.status == "pending")).length,
     completed := (s.tasks.filter (fun t => t.status == "completed")).length,
     by_priority := s.tasks.foldl (fun m t => bumpPriority m t.priority) [] },
   s)

/-- `startsWith hay needle`: the needle occurs at the front of the hay. -/
def startsWith : List Char → List Char → Bool
  | _, [] => true
  | [], _ :: _ => false
  | c :: cs, d :: ds => c == d && startsWith cs ds

/-- Python's substring test `needle in hay` on character lists. -/
def hasSub (hay needle : List Char) : Bool :=
  if startsWith hay needle then true
  else
    match hay with
    | [] => false
    | _ :: t => hasSub t needle

/-- The match predicate of `search_tasks`: the lowered query occurs in
the lowered title or the lowered description. -/
def searchMatch (q : String) (t : Task) : Bool :=
  hasSub t.title.toLower.toList q.toList || hasSub t.description.toLower.toList q.toList

/-- `search_tasks`: lower the query once, keep the tasks whose title or
description contains it, in collection order. -/
def search_tasks (query : String) (s : Store) : List Task × Store :=
  let q := query.toLower
  (s.tasks.filter (fun t => searchMatch q t), s)

/-- The three mutating operations, for reachability statements. -/
inductive Op where
  | add (title description priority : String) (nowC nowU : Nat)
  | update (task_id : Nat) (kw : UpdateFields) (now : Nat)
  | delete (task_id : Nat)

/-- Run one operation, discarding the python return value. -/
def applyOp (s : Store) : Op → Store
  | Op.add ti de pr c u => (add_task ti de pr c u s).2
  | Op.update tid kw now => (update_task tid kw now s).2
  | Op.delete tid => (delete_task tid s).2

/-- Run a sequence of operations. -/
def applyOps (ops : List Op) (s : Store) : Store :=
  ops.foldl applyOp s

/-- Well-formedness of a store as established by `__init__`:
the counter is positive and strictly above every present id. -/
def WF (s : Store) : Prop :=
  1 ≤ s.next_id ∧ ∀ t ∈ s.tasks, t.id < s.next_id

/-- Full invariant for the uniqueness claim: well-formed and the ids are
pairwise distinct. -/
def Inv (s : Store) : Prop :=
  WF s ∧ (s.tasks.map Task.id).Nodup

/-- An update call that does not supply the `id` key. -/
def keepsId : Op → Prop
  | Op.update _ kw _ => kw.id = none
  | _ => True

/-- The constraint a supplied `status` filter imposes in `list_tasks`:
no constraint when the argument is omitted (`None`) or empty. -/
def statusOk (status : Option String) (t : Task) : Bool :=
  if truthy status then t.status == status.getD "" else true

/-- The constraint a supplied `priority` filter imposes in `list_tasks`. -/
def priorityOk (priority : Option String) (t : Task) : Bool :=
  if truthy priority then t.priority == priority.getD "" else true

/-- The distinct values of a list in order of first occurrence —
the key order of a Python dict filled by iteration. -/
def firstKeys (ps : List String) : List String :=
  ps.foldl (fun ks p => if p ∈ ks then ks else ks ++ [p]) []

/-- Run a sequence of `add_task` calls, collecting the assigned ids. -/
def addAll (ps : List (String × String × String × Nat × Nat)) (s : Store) :
    List Nat × Store :=
  match ps with
  | [] => ([], s)
  | (ti, de, pr, c, u) :: rest =>
    let r := add_task ti de pr c u s
    let r2 := addAll rest r.2
    (r.1.id :: r2.1, r2.2)

/-! ### Helper lemmas -/

theorem foldl_max_lt (l : List Task) (a n : Nat) (ha : a < n)
    (hl : ∀ t ∈ l, t.id < n) :
    l.foldl (fun m u => Nat.max m u.id) a < n := by
  induction l generalizing a with
  | nil => exact ha
  | cons t ts ih =>
    exact ih _ (Nat.max_lt.mpr ⟨ha, hl t (List.mem_cons_self t ts)⟩)
      (fun u hu => hl u (List.mem_cons_of_mem t hu))

theorem get_next_id_le (ts : List Task) (n : Nat) (h1 : 1 ≤ n)
    (h2 : ∀ t ∈ ts, t.id < n) : get_next_id ts ≤ n := by
  cases ts with
  | nil => exact h1
  | cons t ts =>
    exact Nat.succ_le_of_lt
      (foldl_max_lt ts t.id n (h2 t (List.mem_cons_self t ts))
        (fun u hu => h2 u (List.mem_cons_of_mem t hu)))

theorem deleteList_sublist (k : Nat) (l l2 : List Task)
    (h : deleteList k l = some l2) : l2.Sublist l := by
  induction l generalizing l2 with
  | nil => simp [deleteList] at h
  | cons t ts ih =>
    by_cases ht : t.id = k
    · simp [deleteList, ht] at h
      exact h ▸ List.sublist_cons_self t ts
    · simp [deleteList, ht] at h
      obtain ⟨l3, h3, rfl⟩ := h
      exact (ih l3 h3).cons₂ t

theorem delete_task_tasks_sublist (k : Nat) (s : Store) :
    ((delete_task k s).2.tasks).Sublist s.tasks := by
  unfold delete_task
  cases h : deleteList k s.tasks with
  | none => simp
  | some l2 => simpa [save_tasks] using deleteList_sublist k s.tasks l2 h

theorem delete_task_next_id (k : Nat) (s : Store) :
    (delete_task k s).2.next_id = s.next_id := by
  unfold delete_task
  cases h : deleteList k s.tasks <;> simp [save_tasks]

theorem updateList_none (tid : Nat) (kw : UpdateFields) (now : Nat)
    (l : List Task) (h : ∀ t ∈ l, t.id ≠ tid) :
    updateList tid kw now l = none := by
  induction l with
  | nil => rfl
  | cons t ts ih =>
    simp only [updateList, h t (List.mem_cons_self t ts), if_false,
      ih (fun u hu => h u (List.mem_cons_of_mem t hu))]

theorem updateList_found (tid : Nat) (kw : UpdateFields) (now : Nat)
    (l : List Task) (t0 : Task)
    (h : l.find? (fun u => u.id == tid) = some t0) :
    ∃ l2, updateList tid kw now l =
      some ({ applyKwargs kw t0 with updated_at := now }, l2) := by
  induction l with
  | nil => simp [List.find?] at h
  | cons t ts ih =>
    by_cases ht : t.id = tid
    · rw [List.find?_cons_of_pos _ (by simpa using ht)] at h
      obtain rfl : t = t0 := by simpa using h
      exact ⟨{ applyKwargs kw t with updated_at := now } :: ts,
        by simp [updateList, ht]⟩
    · rw [List.find?_cons_of_neg _ (by simpa using ht)] at h
      obtain ⟨l2, hl2⟩ := ih h
      exact ⟨t :: l2, by simp [updateList, ht, hl2]⟩

/-! ### C1 -/

/-- C1, counterexample: from the well-formed store with tasks of ids
`1, 2` and counter `3`, deleting task `2` and then adding yields id `3`,
not `1 + max(remaining ids) = 2`: `add_task` uses the stored counter,
which `delete_task` does not lower. -/
theorem next_id_not_max_plus_one_after_delete :
    ¬ ((add_task "c" "" "low" 9 9
          (delete_task 2
            (⟨[⟨1, "a", "", "medium", "pending", 5, 5⟩,
               ⟨2, "b", "", "high", "completed", 6, 6⟩], 3,
              Doc.absent⟩ : Store)).2).1.id =
        get_next_id (delete_task 2
            (⟨[⟨1, "a", "", "medium", "pending", 5, 5⟩,
               ⟨2, "b", "", "high", "completed", 6, 6⟩], 3,
              Doc.absent⟩ : Store)).2.tasks) := by
  decide

/-- C1, amended: in a well-formed store, deleting the task with id `k`
and then adding never assigns id `k` to the new task, and the new id is
at least `1 + max(remaining ids)` (at least `1` if none remain): it
equals the next-id counter, which the delete leaves unchanged. -/
theorem delete_then_add_assigns_fresh_id (s : Store) (k : Nat)
    (ti de pr : String) (c u : Nat)
    (hWF : WF s) (hk : k ∈ s.tasks.map Task.id) :
    (add_task ti de pr c u (delete_task k s).2).1.id ≠ k ∧
    get_next_id ((delete_task k s).2.tasks) ≤
      (add_task ti de pr c u (delete_task k s).2).1.id := by
  obtain ⟨h1, h2⟩ := hWF
  obtain ⟨t, ht, htk⟩ := List.mem_map.mp hk
  have hid : (add_task ti de pr c u (delete_task k s).2).1.id = s.next_id := by
    show (delete_task k s).2.next_id = s.next_id
    exact delete_task_next_id k s
  constructor
  · rw [hid]
    exact Nat.ne_of_gt (htk ▸ h2 t ht)
  · rw [hid]
    exact get_next_id_le _ _ h1
      (fun u hu => h2 u ((delete_task_tasks_sublist k s).mem hu))

/-- C1, witness for `delete_then_add_assigns_fresh_id` at the store with
ids `1, 2` and counter `3`, deleting id `2`. -/
theorem delete_then_add_assigns_fresh_id_witness :
    (add_task "c" "" "low" 9 9
        (delete_task 2
          (⟨[⟨1, "a", "", "medium", "pending", 5, 5⟩,
             ⟨2, "b", "", "high", "completed", 6, 6⟩], 3,
            Doc.absent⟩ : Store)).2).1.id ≠ 2 ∧
    get_next_id ((delete_task 2
          (⟨[⟨1, "a", "", "medium", "pending", 5, 5⟩,
             ⟨2, "b", "", "high", "completed", 6, 6⟩], 3,
            Doc.absent⟩ : Store)).2.tasks) ≤
      (add_task "c" "" "low" 9 9
        (delete_task 2
          (⟨[⟨1, "a", "", "medium", "pending", 5, 5⟩,
             ⟨2, "b", "", "high", "completed", 6, 6⟩], 3,
            Doc.absent⟩ : Store)).2).1.id :=
  delete_then_add_assigns_fresh_id _ 2 "c" "" "low" 9 9
    ⟨by decide, by decide⟩ (by decide)

/-! ### C2 -/

/-- C2, counterexample: `update_task` applies any supplied key that is
already present on the task dict, and `created_at` is such a key: on the
store whose single task has `created_at = 5`, an update supplying
`created_at = 99` (with clock `7` past the previous `updated_at = 6`)
changes the task's `created_at`. -/
theorem update_can_change_created_at :
    ((update_task 1 ({ created_at := some 99 } : UpdateFields) 7
        (⟨[⟨1, "a", "", "medium", "pending", 5, 6⟩], 2,
          Doc.absent⟩ : Store)).2.tasks.map Task.created_at) ≠
      ((⟨[⟨1, "a", "", "medium", "pending", 5, 6⟩], 2,
          Doc.absent⟩ : Store).tasks.map Task.created_at) := by
  decide

/-- C2, amended: for a task present in the store and update fields that
do **not** supply `created_at`, the update leaves `created_at` unchanged
and sets `updated_at` to the call time, which is ≥ the previous
`updated_at` whenever the clock has not gone backwards. -/
theorem update_preserves_created_at_of_not_supplied (s : Store) (tid : Nat)
    (kw : UpdateFields) (now : Nat) (t0 : Task)
    (h : s.tasks.find? (fun u => u.id == tid) = some t0)
    (hkw : kw.created_at = none) (hnow : t0.updated_at ≤ now) :
    ∃ t2, (update_task tid kw now s).1 = some t2 ∧
      t2.created_at = t0.created_at ∧ t0.updated_at ≤ t2.updated_at := by
  obtain ⟨l2, hl2⟩ := updateList_found tid kw now s.tasks t0 h
  have h1 : (update_task tid kw now s).1 =
      some ({ applyKwargs kw t0 with updated_at := now }) := by
    unfold update_task
    rw [hl2]
  exact ⟨_, h1, by simp [applyKwargs, hkw], hnow⟩

/-- C2, witness for `update_preserves_created_at_of_not_supplied` on a
one-task store, updating only the status. -/
theorem update_preserves_created_at_of_not_supplied_witness :
    ∃ t2, (update_task 1 ({ status := some "completed" } : UpdateFields) 9
        (⟨[⟨1, "a", "", "medium", "pending", 5, 6⟩], 2,
          Doc.absent⟩ : Store)).1 = some t2 ∧
      t2.created_at = (⟨1, "a", "", "medium", "pending", 5, 6⟩ : Task).created_at ∧
      (⟨1, "a", "", "medium", "pending", 5, 6⟩ : Task).updated_at ≤ t2.updated_at :=
  update_preserves_created_at_of_not_supplied _ 1 _ 9 _
    (by decide) rfl (by decide)

/-! ### C9 -/

theorem add_task_inv (ti de pr : String) (c u : Nat) (s : Store)
    (h : Inv s) : Inv (add_task ti de pr c u s).2 := by
  obtain ⟨⟨h1, h2⟩, h3⟩ := h
  refine ⟨⟨Nat.le_succ_of_le h1, ?_⟩, ?_⟩
  · intro t ht
    rcases List.mem_append.mp ht with ht | ht
    · exact Nat.lt_succ_of_lt (h2 t ht)
    · simp at ht
      rw [ht]
      exact Nat.lt_succ_self _
  · show ((s.tasks ++ [_]).map Task.id).Nodup
    rw [List.map_append]
    rw [List.nodup_append]
    refine ⟨h3, List.nodup_singleton _, ?_⟩
    intro x hx hx2
    simp at hx2
    obtain ⟨u, hu, hux⟩ := List.mem_map.mp hx
    rw [hx2] at hux
    exact absurd (hux ▸ h2 u hu) (Nat.lt_irrefl _)

theorem delete_task_inv (k : Nat) (s : Store) (h : Inv s) :
    Inv (delete_task k s).2 := by
  obtain ⟨⟨h1, h2⟩, h3⟩ := h
  refine ⟨⟨?_, ?_⟩, ?_⟩
  · rw [delete_task_next_id]
    exact h1
  · intro t ht
    rw [delete_task_next_id]
    exact h2 t ((delete_task_tasks_sublist k s).mem ht)
  · exact h3.sublist ((delete_task_tasks_sublist k s).map Task.id)

theorem updateList_map_id (tid : Nat) (kw : UpdateFields) (now : Nat)
    (l : List Task) (hkw : kw.id = none) :
    ∀ t2 l2, updateList tid kw now l = some (t2, l2) →
      l2.map Task.id = l.map Task.id := by
  induction l with
  | nil => intro t2 l2 h; simp [updateList] at h
  | cons t ts ih =>
    intro t2 l2 h
    by_cases ht : t.id = tid
    · simp [updateList, ht] at h
      rw [← h.2]
      simp [applyKwargs, hkw]
    · simp only [updateList, ht, if_false] at h
      cases hres : updateList tid kw now ts with
      | none => rw [hres] at h; simp at h
      | some p =>
        rw [hres] at h
        obtain ⟨r, ts2⟩ := p
        simp at h
        rw [← h.2]
        simp [ih r ts2 hres]

theorem update_task_inv (tid : Nat) (kw : UpdateFields) (now : Nat)
    (s : Store) (hkw : kw.id = none) (h : Inv s) :
    Inv (update_task tid kw now s).2 := by
  obtain ⟨⟨h1, h2⟩, h3⟩ := h
  unfold update_task
  cases hres : updateList tid kw now s.tasks with
  | none => exact ⟨⟨h1, h2⟩, h3⟩
  | some p =>
    obtain ⟨t2, l2⟩ := p
    have hmap : l2.map Task.id = s.tasks.map Task.id :=
      updateList_map_id tid kw now s.tasks hkw t2 l2 hres
    refine ⟨⟨h1, ?_⟩, ?_⟩
    · intro t ht
      have : t.id ∈ s.tasks.map Task.id := by
        rw [← hmap]
        exact List.mem_map_of_mem Task.id ht
      obtain ⟨u, hu, hux⟩ := List.mem_map.mp this
      exact hux ▸ h2 u hu
    · show (l2.map Task.id).Nodup
      rw [hmap]
      exact h3

theorem applyOp_inv (s : Store) (op : Op) (h : Inv s) (hop : keepsId op) :
    Inv (applyOp s op) := by
  cases op with
  | add ti de pr c u => exact add_task_inv ti de pr c u s h
  | update tid kw now => exact update_task_inv tid kw now s hop h
  | delete tid => exact delete_task_inv tid s h

theorem applyOps_inv (ops : List Op) : ∀ s : Store, Inv s →
    (∀ op ∈ ops, keepsId op) → Inv (applyOps ops s) := by
  induction ops with
  | nil => intro s h _; exact h
  | cons op ops ih =>
    intro s h hops
    exact ih (applyOp s op)
      (applyOp_inv s op h (hops op (List.mem_cons_self op ops)))
      (fun o ho => hops o (List.mem_cons_of_mem op ho))

/-- C9, counterexample: from a store with pairwise-distinct ids `1, 2`,
a single `update_task` call supplying the `id` key (which the source's
`if key in task` check admits) produces two tasks with id `2`. -/
theorem update_id_breaks_uniqueness :
    (((⟨[⟨1, "a", "", "medium", "pending", 5, 5⟩,
         ⟨2, "b", "", "high", "pending", 6, 6⟩], 3,
        Doc.absent⟩ : Store).tasks.map Task.id).Nodup) ∧
    ¬ (((applyOps [Op.update 1 ({ id := some 2 } : UpdateFields) 7]
          (⟨[⟨1, "a", "", "medium", "pending", 5, 5⟩,
             ⟨2, "b", "", "high", "pending", 6, 6⟩], 3,
            Doc.absent⟩ : Store)).tasks.map Task.id).Nodup) := by
  constructor
  · decide
  · decide

/-- C9, amended: from a well-formed store with pairwise-distinct ids,
every sequence of `add_task`, `delete_task`, and `update_task` calls
whose update fields never supply the `id` key leaves all task ids
pairwise distinct. -/
theorem reachable_ids_nodup (s : Store) (ops : List Op) (hInv : Inv s)
    (hops : ∀ op ∈ ops, keepsId op) :
    ((applyOps ops s).tasks.map Task.id).Nodup :=
  (applyOps_inv ops s hInv hops).2

/-- C9, witness for `reachable_ids_nodup`: an add, a delete, and a
status-only update run from a two-task store. -/
theorem reachable_ids_nodup_witness :
    ((applyOps [Op.add "c" "" "low" 9 9, Op.delete 1,
        Op.update 2 ({ status := some "completed" } : UpdateFields) 11]
        (⟨[⟨1, "a", "", "medium", "pending", 5, 5⟩,
           ⟨2, "b", "", "high", "pending", 6, 6⟩], 3,
          Doc.absent⟩ : Store)).tasks.map Task.id).Nodup :=
  reachable_ids_nodup _ _ ⟨⟨by decide, by decide⟩, by decide⟩
    (by intro op h; fin_cases h <;> trivial)

/-! ### C3 -/

/-- C3: updating an id that no task carries returns `None` and leaves
the whole store — task collection, counter, and persisted document —
unchanged (`save_tasks` is never reached). -/
theorem update_missing_id_leaves_store_unchanged (s : Store) (tid : Nat)
    (kw : UpdateFields) (now : Nat) (h : ∀ t ∈ s.tasks, t.id ≠ tid) :
    update_task tid kw now s = (none, s) := by
  unfold update_task
  rw [updateList_none tid kw now s.tasks h]

/-- C3, witness for `update_missing_id_leaves_store_unchanged`: updating
id `5` in a store whose only task has id `1`. -/
theorem update_missing_id_leaves_store_unchanged_witness :
    update_task 5 { title := some "x" } 7
        (⟨[⟨1, "a", "", "medium", "pending", 5, 5⟩], 2,
          Doc.absent⟩ : Store) =
      (none,
        (⟨[⟨1, "a", "", "medium", "pending", 5, 5⟩], 2,
          Doc.absent⟩ : Store)) :=
  update_missing_id_leaves_store_unchanged _ 5 _ 7 (by decide)

/-! ### C4 -/

/-- C4: constructing the store from an absent document, or from one that
is not valid JSON, yields the empty collection and next-id `1`. -/
theorem mkStore_absent_or_invalid_empty :
    (mkStore Doc.absent).tasks = [] ∧ (mkStore Doc.absent).next_id = 1 ∧
    (mkStore Doc.invalid).tasks = [] ∧ (mkStore Doc.invalid).next_id = 1 :=
  ⟨rfl, rfl, rfl, rfl⟩

/-! ### C10 -/

/-- C10: the read-only operations `get_task`, `list_tasks`, `get_stats`
and `search_tasks` return the store — tasks, counter, and backing
document — exactly as it was. -/
theorem read_ops_leave_store_unchanged (s : Store) (tid : Nat)
    (status priority : Option String) (q : String) :
    (get_task tid s).2 = s ∧ (list_tasks status priority s).2 = s ∧
    (get_stats s).2 = s ∧ (search_tasks q s).2 = s :=
  ⟨rfl, rfl, rfl, rfl⟩

/-! ### C5 -/

theorem mem_insertById (t x : Task) (l : List Task) :
    x ∈ insertById t l ↔ x = t ∨ x ∈ l := by
  induction l with
  | nil => simp [insertById]
  | cons u us ih =>
    by_cases h : t.id ≤ u.id <;> simp [insertById, h, ih] ; tauto

theorem insertById_perm (t : Task) (l : List Task) :
    (insertById t l).Perm (t :: l) := by
  induction l with
  | nil => exact List.Perm.refl _
  | cons u us ih =>
    by_cases h : t.id ≤ u.id
    · simp only [insertById, h, if_true]
      exact List.Perm.refl _
    · simp only [insertById, h, if_false]
      exact (ih.cons u).trans (List.Perm.swap t u us)

theorem sortById_perm (l : List Task) : (sortById l).Perm l := by
  induction l with
  | nil => exact List.Perm.refl _
  | cons t ts ih => exact (insertById_perm t (sortById ts)).trans (ih.cons t)

theorem insertById_pairwise (t : Task) (l : List Task)
    (h : l.Pairwise (fun a b => a.id ≤ b.id)) :
    (insertById t l).Pairwise (fun a b => a.id ≤ b.id) := by
  induction l with
  | nil => simp [insertById]
  | cons u us ih =>
    rw [List.pairwise_cons] at h
    obtain ⟨hu, hus⟩ := h
    by_cases ht : t.id ≤ u.id
    · simp only [insertById, ht, if_true]
      rw [List.pairwise_cons]
      refine ⟨?_, List.pairwise_cons.mpr ⟨hu, hus⟩⟩
      intro b hb
      rcases List.mem_cons.mp hb with rfl | hb
      · exact ht
      · exact Nat.le_trans ht (hu b hb)
    · simp only [insertById, ht, if_false]
      rw [List.pairwise_cons]
      refine ⟨?_, ih hus⟩
      intro b hb
      rcases (mem_insertById t b us).mp hb with rfl | hb
      · exact Nat.le_of_lt (Nat.lt_of_not_le ht)
      · exact hu b hb

theorem sortById_pairwise (l : List Task) :
    (sortById l).Pairwise (fun a b => a.id ≤ b.id) := by
  induction l with
  | nil => simp [sortById]
  | cons t ts ih => exact insertById_pairwise t (sortById ts) ih

theorem list_tasks_fst_eq (status priority : Option String) (s : Store) :
    (list_tasks status priority s).1 =
      sortById (s.tasks.filter
        (fun t => statusOk status t && priorityOk priority t)) := by
  unfold list_tasks statusOk priorityOk
  cases hs : truthy status <;> cases hp : truthy priority <;>
      simp [List.filter_filter]
  congr 1
  apply List.filter_congr
  intro a _
  rw [Bool.and_comm]

/-- C5: `list_tasks` returns exactly the tasks meeting every supplied
non-empty filter (an omitted or empty filter imposes no constraint) —
as a permutation of the filtered collection — in ascending id order. -/
theorem list_tasks_filters_and_sorts (status priority : Option String)
    (s : Store) :
    ((list_tasks status priority s).1).Perm
        (s.tasks.filter
          (fun t => statusOk status t && priorityOk priority t)) ∧
    ((list_tasks status priority s).1).Pairwise
        (fun a b => a.id ≤ b.id) := by
  rw [list_tasks_fst_eq]
  exact ⟨sortById_perm _, sortById_pairwise _⟩

/-! ### C6 -/

theorem startsWith_iff (needle : List Char) : ∀ hay : List Char,
    startsWith hay needle = true ↔ ∃ rest, needle ++ rest = hay := by
  induction needle with
  | nil =>
    intro hay
    simp only [startsWith, true_iff]
    exact ⟨hay, rfl⟩
  | cons d ds ih =>
    intro hay
    cases hay with
    | nil =>
      simp [startsWith]
    | cons c cs =>
      simp only [startsWith, Bool.and_eq_true, beq_iff_eq, ih cs,
        List.cons_append, List.cons.injEq]
      constructor
      · rintro ⟨rfl, rest, rfl⟩
        exact ⟨rest, rfl, rfl⟩
      · rintro ⟨rest, rfl, rfl⟩
        exact ⟨rfl, rest, rfl⟩

theorem hasSub_iff (needle : List Char) : ∀ hay : List Char,
    hasSub hay needle = true ↔ ∃ pre post, pre ++ needle ++ post = hay := by
  intro hay
  induction hay with
  | nil =>
    constructor
    · intro h
      unfold hasSub at h
      cases needle with
      | nil => exact ⟨[], [], rfl⟩
      | cons d ds => simp [startsWith] at h
    · rintro ⟨pre, post, hp⟩
      simp only [List.append_eq_nil] at hp
      obtain ⟨⟨rfl, rfl⟩, rfl⟩ := hp
      decide
  | cons c t ih =>
    constructor
    · intro h
      unfold hasSub at h
      by_cases hsw : startsWith (c :: t) needle = true
      · obtain ⟨rest, hr⟩ := (startsWith_iff needle (c :: t)).mp hsw
        exact ⟨[], rest, by simpa using hr⟩
      · rw [if_neg hsw] at h
        obtain ⟨pre, post, hp⟩ := ih.mp h
        exact ⟨c :: pre, post, by simp [hp]⟩
    · rintro ⟨pre, post, hp⟩
      unfold hasSub
      cases pre with
      | nil =>
        have hsw : startsWith (c :: t) needle = true :=
          (startsWith_iff needle (c :: t)).mpr ⟨post, by simpa using hp⟩
        simp [hsw]
      | cons p ps =>
        simp only [List.cons_append, List.cons.injEq] at hp
        obtain ⟨rfl, hp2⟩ := hp
        have h2 : hasSub t needle = true := ih.mpr ⟨ps, post, hp2⟩
        by_cases hsw : startsWith (p :: t) needle = true
        · simp [hsw]
        · simp [hsw, h2]

/-- C6: `search_tasks` keeps the original collection order (its result
is a sublist of the collection), and a task is kept exactly when the
lowered query occurs as a contiguous substring of its lowered title or
of its lowered description. -/
theorem search_tasks_substring_characterization (q : String) (s : Store) :
    ((search_tasks q s).1).Sublist s.tasks ∧
    ∀ t : Task, t ∈ (search_tasks q s).1 ↔ t ∈ s.tasks ∧
      ((∃ pre post, pre ++ q.toLower.toList ++ post = t.title.toLower.toList) ∨
       (∃ pre post,
         pre ++ q.toLower.toList ++ post = t.description.toLower.toList)) := by
  constructor
  · exact List.filter_sublist _
  · intro t
    rw [show (search_tasks q s).1 =
        s.tasks.filter (fun t => searchMatch q.toLower t) from rfl]
    rw [List.mem_filter]
    simp [searchMatch, hasSub_iff]

/-! ### C7 -/

theorem dictGetD_dictSet_same (m : List (String × Nat)) (k : String)
    (v d : Nat) : dictGetD (dictSet m k v) k d = v := by
  induction m with
  | nil => simp [dictSet, dictGetD]
  | cons e rest ih =>
    obtain ⟨k2, v2⟩ := e
    by_cases h : k2 = k
    · simp [dictSet, dictGetD, h]
    · simp [dictSet, dictGetD, h, ih]

theorem dictGetD_dictSet_ne (m : List (String × Nat)) (k p : String)
    (v d : Nat) (h : k ≠ p) : dictGetD (dictSet m k v) p d = dictGetD m p d := by
  induction m with
  | nil => simp [dictSet, dictGetD, h]
  | cons e rest ih =>
    obtain ⟨k2, v2⟩ := e
    by_cases h2 : k2 = k
    · subst h2
      simp [dictSet, dictGetD, h]
    · simp [dictSet, dictGetD, h2, ih]

theorem keys_dictSet (m : List (String × Nat)) (k : String) (v : Nat) :
    (dictSet m k v).map Prod.fst =
      if k ∈ m.map Prod.fst then m.map Prod.fst
      else m.map Prod.fst ++ [k] := by
  induction m with
  | nil => simp [dictSet]
  | cons e rest ih =>
    obtain ⟨k2, v2⟩ := e
    by_cases h : k2 = k
    · subst h
      simp [dictSet]
    · have hne : ¬ k = k2 := fun hk => h hk.symm
      by_cases hm : k ∈ rest.map Prod.fst <;>
        simp [dictSet, h, hne, hm, ih]

theorem foldl_bump_getD (l : List Task) (p : String) :
    ∀ m, dictGetD (l.foldl (fun m t => bumpPriority m t.priority) m) p 0 =
      dictGetD m p 0 + (l.filter (fun t => t.priority == p)).length := by
  induction l with
  | nil => intro m; simp
  | cons t ts ih =>
    intro m
    show dictGetD (ts.foldl _ (bumpPriority m t.priority)) p 0 = _
    rw [ih (bumpPriority m t.priority)]
    by_cases h : t.priority = p
    · rw [show bumpPriority m t.priority =
          dictSet m t.priority (dictGetD m t.priority 0 + 1) from rfl]
      rw [h, dictGetD_dictSet_same]
      simp [List.filter_cons, h]
      omega
    · rw [show bumpPriority m t.priority =
          dictSet m t.priority (dictGetD m t.priority 0 + 1) from rfl]
      rw [dictGetD_dictSet_ne _ _ _ _ _ h]
      simp [List.filter_cons, h]

theorem foldl_bump_keys (l : List Task) :
    ∀ acc : List (String × Nat),
      (l.foldl (fun m t => bumpPriority m t.priority) acc).map Prod.fst =
      (l.map Task.priority).foldl
        (fun ks p => if p ∈ ks then ks else ks ++ [p])
        (acc.map Prod.fst) := by
  induction l with
  | nil => intro acc; rfl
  | cons t ts ih =>
    intro acc
    show (ts.foldl _ (bumpPriority acc t.priority)).map Prod.fst = _
    rw [ih (bumpPriority acc t.priority)]
    rw [show bumpPriority acc t.priority =
        dictSet acc t.priority (dictGetD acc t.priority 0 + 1) from rfl]
    rw [keys_dictSet]
    rfl

/-- C7: `get_stats` reports the collection size, the counts of pending
and completed tasks, and a priority histogram that maps every observed
priority to its number of occurrences, keyed in order of first
occurrence. -/
theorem get_stats_correct (s : Store) :
    ((get_stats s).1).total = s.tasks.length ∧
    ((get_stats s).1).pending =
      s.tasks.countP (fun t => t.status == "pending") ∧
    ((get_stats s).1).completed =
      s.tasks.countP (fun t => t.status == "completed") ∧
    (∀ p : String, dictGetD ((get_stats s).1).by_priority p 0 =
      s.tasks.countP (fun t => t.priority == p)) ∧
    ((get_stats s).1).by_priority.map Prod.fst =
      firstKeys (s.tasks.map Task.priority) := by
  refine ⟨rfl, ?_, ?_, ?_, ?_⟩
  · exact (List.countP_eq_length_filter _ _).symm
  · exact (List.countP_eq_length_filter _ _).symm
  · intro p
    show dictGetD (s.tasks.foldl (fun m t => bumpPriority m t.priority) []) p 0 = _
    rw [foldl_bump_getD]
    simp [dictGetD, List.countP_eq_length_filter]
  · show (s.tasks.foldl (fun m t => bumpPriority m t.priority) []).map Prod.fst = _
    rw [foldl_bump_keys]
    rfl

/-! ### C8 -/

theorem addAll_ids_general (ps : List (String × String × String × Nat × Nat)) :
    ∀ s : Store, (addAll ps s).1 = List.range' s.next_id ps.length := by
  induction ps with
  | nil => intro s; rfl
  | cons p ps ih =>
    intro s
    obtain ⟨ti, de, pr, c, u⟩ := p
    show (add_task ti de pr c u s).1.id ::
        (addAll ps (add_task ti de pr c u s).2).1 = _
    rw [ih]
    simp only [List.length_cons]
    rw [List.range'_succ]
    rfl

/-- C8: starting from the empty store, a sequence of `N` adds assigns
exactly the ids `1, 2, ..., N`, in call order. -/
theorem addAll_assigns_consecutive_ids
    (ps : List (String × String × String × Nat × Nat)) :
    (addAll ps (mkStore Doc.absent)).1 = List.range' 1 ps.length := by
  rw [addAll_ids_general ps (mkStore Doc.absent)]
  rfl

end TaskManager
